import Mathlib

/-!
Verification development for the `minecraft-server-launcher` repository.

Each Go function relevant to the verified claims is shallowly embedded as a
Lean definition.  Filesystem and network effects are made explicit: file
contents are values (`Option (List Nat)` byte lists or `Option Nat` content
ids), and each fallible OS / HTTP primitive is driven by an explicit fault
oracle, so that every control-flow path of the source is a branch of the
Lean function.  Definitions come first, theorems afterwards.
-/

namespace MSL

/-! ## Version comparison (`internal/update/update.go`, `compareVersions`)

The Go loop walks both strings byte-by-byte.  A component is the run of
bytes up to the next `'.'` (the dot being consumed); digit bytes accumulate
into `n1 = n1*10 + int(c-'0')`, any other byte marks the component invalid,
and an invalid or exhausted component counts as 0.  We embed the loop over
`List Char` (identical behaviour on the ASCII alphabet the comparison
distinguishes: only `'.'` and `'0'..'9'` are ever special, and every byte
of a non-ASCII character is equally "not a digit, not a dot").  The
accumulator is Go's native `int` — 64-bit on every platform the launcher
publishes assets for — so each accumulation step is taken mod `2^64` and
the final comparison reads the two's-complement signed value: components of
19 or more digits wrap, exactly as in the program. -/

def isDigitCh (c : Char) : Bool := 48 ≤ c.toNat && c.toNat ≤ 57

/-- The two's-complement signed value of a 64-bit machine word. -/
def toSigned (n : Nat) : Int :=
  if n < 2 ^ 63 then (n : Int) else (n : Int) - 2 ^ 64

/-- The inner component-scanning loop of `compareVersions`: starting from
accumulator `n` (a 64-bit word) and validity flag `valid`, scan up to and
including the next dot, returning the accumulator, the validity flag and
the remaining input.  Each digit step wraps mod `2^64` like Go's `int`. -/
def takeComp : Nat → Bool → List Char → Nat × Bool × List Char
  | n, valid, [] => (n, valid, [])
  | n, valid, c :: rest =>
    if c = '.' then (n, valid, rest)
    else if isDigitCh c then takeComp ((n * 10 + (c.toNat - 48)) % 2 ^ 64) valid rest
    else takeComp n false rest

/-- One component of a version string as `compareVersions` sees it: its
signed `int` value (0 when invalid) and the remaining input. -/
def component (s : List Char) : Int × List Char :=
  let t := takeComp 0 true s
  (if t.2.1 then toSigned t.1 else 0, t.2.2)

/-- The outer `for i1 < l1 || i2 < l2` loop of `compareVersions`.  Each
iteration consumes at least one character of `s1 ++ s2`, so fuel
`|s1| + |s2| + 1` always suffices; the fuel-0 answer coincides with the
both-empty answer. -/
def cmpLoop : Nat → List Char → List Char → Int
  | 0, _, _ => 0
  | fuel + 1, s1, s2 =>
    if s1.isEmpty && s2.isEmpty then 0
    else
      let p1 := component s1
      let p2 := component s2
      if p1.1 > p2.1 then 1
      else if p1.1 < p2.1 then -1
      else cmpLoop fuel p1.2 p2.2

/-- `compareVersions` from `internal/update/update.go`. -/
def compareVersions (v1 v2 : String) : Int :=
  cmpLoop (v1.length + v2.length + 1) v1.data v2.data

/-! ### The reference comparator of the specification

The spec describes `compare` as: split each string on dots, read each
component as a number (non-numeric or missing components count as 0, the
shorter list padded with zeros) and return the sign at the first differing
pair.  The following definitions transcribe that wording; they exist only to
be compared against the embedding of the source. -/

/-- Split a character list on `'.'`, keeping empty groups, exactly like
`String.splitOn "."` (so `""` gives `[[]]` and `"1."` gives `[['1'], []]`). -/
def splitOnDot : List Char → List (List Char)
  | [] => [[]]
  | c :: rest =>
    if c = '.' then [] :: splitOnDot rest
    else
      match splitOnDot rest with
      | [] => [[c]]
      | g :: gs => (c :: g) :: gs

/-- Unbounded decimal accumulation over a character group, skipping
non-digits (the skipped case is only ever relevant with the validity flag
already false).  This is the mathematical value the spec describes. -/
def dacc (n : Nat) (g : List Char) : Nat :=
  g.foldl (fun a c => if isDigitCh c then a * 10 + (c.toNat - 48) else a) n

/-- The wrapped (64-bit) decimal accumulation that `takeComp` performs. -/
def wdacc (n : Nat) (g : List Char) : Nat :=
  g.foldl (fun a c => if isDigitCh c then (a * 10 + (c.toNat - 48)) % 2 ^ 64 else a) n

/-- Numeric value of one dot-separated component per the spec: its decimal
value when it is all digits, otherwise 0 (an empty group is also 0). -/
def compVal (g : List Char) : Nat :=
  if g.all isDigitCh then dacc 0 g else 0

/-- The signed component value the code computes: the wrapped accumulation
read as a two's-complement `int`, or 0 when the group is not all digits. -/
def wcompVal (g : List Char) : Int :=
  if g.all isDigitCh then toSigned (wdacc 0 g) else 0

/-- Pairwise comparison of the zero-padded tail once the left list is out. -/
def padCmpNil : List Nat → Int
  | [] => 0
  | y :: ys => if 0 < y then -1 else padCmpNil ys

/-- Pairwise left-to-right comparison of component lists, the shorter list
padded with zeros: the sign of the first differing pair. -/
def padCmp : List Nat → List Nat → Int
  | [], ys => padCmpNil ys
  | x :: xs, [] => if 0 < x then 1 else padCmp xs []
  | x :: xs, y :: ys => if x > y then 1 else if x < y then -1 else padCmp xs ys

/-- The spec's reference comparator, following its wording: split on dots,
value each component (non-numeric/missing → 0), compare pairwise with zero
padding. -/
def specCompare (a b : String) : Int :=
  padCmp ((splitOnDot a.data).map compVal) ((splitOnDot b.data).map compVal)

/-- Characters of the first dot-component. -/
def firstGroup : List Char → List Char
  | [] => []
  | c :: r => if c = '.' then [] else c :: firstGroup r

/-- Input remaining after the first dot (empty when there is no dot). -/
def afterDot : List Char → List Char
  | [] => []
  | c :: r => if c = '.' then r else afterDot r

def hasDot (s : List Char) : Bool := s.any (· = '.')

/-! ## String trimming and version normalisation

`strings.TrimSpace` trims characters satisfying `unicode.IsSpace`; in the
Latin-1 range these are `'\t'..'\r'`, `' '`, U+0085 and U+00A0 (higher
code points with the White_Space property are not modelled — no claim
distinguishes them). -/

def goIsSpace (c : Char) : Bool :=
  (9 ≤ c.toNat && c.toNat ≤ 13) || c.toNat = 32 || c.toNat = 133 || c.toNat = 160

/-- `strings.TrimSpace`. -/
def trimSpace (s : String) : String :=
  ⟨((s.data.dropWhile goIsSpace).reverse.dropWhile goIsSpace).reverse⟩

/-- `strings.TrimPrefix(version, "v")`. -/
def trimPrefixV (s : String) : String :=
  match s.data with
  | 'v' :: rest => ⟨rest⟩
  | _ => s

/-- `normalizeVersion` from `internal/update/update.go`: strip one leading
`"v"`, then trim surrounding whitespace. -/
def normalizeVersion (version : String) : String :=
  trimSpace (trimPrefixV version)

/-! ## Self-update check (`internal/update/update.go`)

`getVersionFromGit` runs `git describe --tags --abbrev=0`; its outcome is
the oracle `gitOutput` (`none`: the command failed). -/

def getVersionFromGit (gitOutput : Option String) : String :=
  match gitOutput with
  | none => "dev"
  | some output =>
    let version := normalizeVersion (trimSpace output)
    if version = "" then "dev" else version

/-- `GetCurrentVersion`: the embedded `launcherVersion` build variable,
falling back to git when it is empty or `"dev"`. -/
def GetCurrentVersion (launcherVersion : String) (gitOutput : Option String) : String :=
  if launcherVersion = "" || launcherVersion = "dev" then getVersionFromGit gitOutput
  else launcherVersion

/-- Outcome of the single GitHub releases/latest request that
`CheckForUpdate` performs. -/
inductive ApiOutcome
  | transportErr
  | badStatus (code : Nat)
  | badJson
  | release (tagName : String)

inductive CheckErr
  | requestFailed
  | apiStatus (code : Nat)
  | badRelease
  deriving DecidableEq

/-- `CheckForUpdate`: on a 200 response carrying `tagName`, compare the
normalised latest tag against the normalised current version; report an
update only when the latest compares strictly greater.  `currentVersionRaw`
is the value `GetCurrentVersion()` produced. On success the pair is
(update-available, the tag of the returned release). -/
def CheckForUpdate (currentVersionRaw : String) (api : ApiOutcome) :
    Except CheckErr (Bool × Option String) :=
  match api with
  | .transportErr => .error .requestFailed
  | .badStatus code => .error (.apiStatus code)
  | .badJson => .error .badRelease
  | .release tagName =>
    let currentVersion := normalizeVersion currentVersionRaw
    let latestVersion := normalizeVersion tagName
    if currentVersion = "" || latestVersion = "" then .ok (false, none)
    else if compareVersions latestVersion currentVersion ≤ 0 then .ok (false, none)
    else .ok (true, some tagName)

/-! ## Checksum sidecar (`internal/utils/validation.go`, `LoadChecksumFile`)

File content is modelled as the decoded string; Go's `len` counts UTF-8
bytes, modelled by `byteLen` below. -/

def isHexDigitCh (c : Char) : Bool :=
  (48 ≤ c.toNat && c.toNat ≤ 57) || (97 ≤ c.toNat && c.toNat ≤ 102) ||
  (65 ≤ c.toNat && c.toNat ≤ 70)

/-- UTF-8 encoded size of one character. -/
def utf8Bytes (c : Char) : Nat :=
  if c.toNat < 128 then 1
  else if c.toNat < 2048 then 2
  else if c.toNat < 65536 then 3
  else 4

/-- Go's `len` on a string: its UTF-8 byte count. -/
def byteLen (s : String) : Nat := (s.data.map utf8Bytes).sum

/-- Outcome of `os.ReadFile` on the sidecar path. -/
inductive ReadOutcome
  | missing
  | ioError
  | content (data : String)

inductive ChecksumLoadError
  | readFailed
  | badLength (n : Nat)
  | nonHex
  deriving DecidableEq

/-- `LoadChecksumFile`: a missing file yields `Empty` (`ok none`); present
content is trimmed and must be exactly 64 bytes of hex digits. -/
def LoadChecksumFile (file : ReadOutcome) : Except ChecksumLoadError (Option String) :=
  match file with
  | .missing => .ok none
  | .ioError => .error .readFailed
  | .content data =>
    let checksum := trimSpace data
    if byteLen checksum ≠ 64 then .error (.badLength (byteLen checksum))
    else if checksum.data.all isHexDigitCh then .ok (some checksum)
    else .error .nonHex

/-! ## JAR structural validation (`internal/utils/validation.go`)

A file is `none` (does not exist) or its byte list.  Go's
`zip.NewReader` (standard library) is abstracted by the oracle
`zipEntries`: `none` when the bytes do not parse as a ZIP archive, else the
list of entry names.  The boolean in the result is the "missing manifest"
warning flag (the source only logs this warning to stderr). -/

inductive JarError
  | notFound
  | empty
  | tooSmall (size : Nat)
  | badMagic (b0 b1 : Nat)
  | corruptZip
  | noEntries
  deriving DecidableEq

/-- `ValidateJarFile`. -/
def ValidateJarFile (zipEntries : List Nat → Option (List String))
    (file : Option (List Nat)) : Except JarError Unit × Bool :=
  match file with
  | none => (.error .notFound, false)
  | some bytes =>
    if bytes.length = 0 then (.error .empty, false)
    else if bytes.length < 22 then (.error (.tooSmall bytes.length), false)
    else
      let b0 := bytes.headD 0
      let b1 := (bytes.drop 1).headD 0
      if b0 ≠ 0x50 ∨ b1 ≠ 0x4B then (.error (.badMagic b0 b1), false)
      else
        match zipEntries bytes with
        | none => (.error .corruptZip, false)
        | some entries =>
          if entries.length = 0 then (.error .noEntries, false)
          else (.ok (), !(entries.any (· = "META-INF/MANIFEST.MF")))

/-- `ValidateJarAndCalculateChecksum`: the same check sequence, additionally
returning the SHA-256 hex digest of the whole byte content on success.  The
hash itself is the abstract oracle `sha256Hex`. -/
def ValidateJarAndCalculateChecksum (zipEntries : List Nat → Option (List String))
    (sha256Hex : List Nat → String) (file : Option (List Nat)) :
    Except JarError String × Bool :=
  match file with
  | none => (.error .notFound, false)
  | some bytes =>
    if bytes.length = 0 then (.error .empty, false)
    else if bytes.length < 22 then (.error (.tooSmall bytes.length), false)
    else
      let b0 := bytes.headD 0
      let b1 := (bytes.drop 1).headD 0
      if b0 ≠ 0x50 ∨ b1 ≠ 0x4B then (.error (.badMagic b0 b1), false)
      else
        match zipEntries bytes with
        | none => (.error .corruptZip, false)
        | some entries =>
          if entries.length = 0 then (.error .noEntries, false)
          else (.ok (sha256Hex bytes), !(entries.any (· = "META-INF/MANIFEST.MF")))

/-! ## Resilient request (`internal/utils` shared file, `DoRequest`)

Up to `MaxRetries` attempts; before every attempt but the first the loop
waits `delay` (breaking off if the context is done) and doubles `delay`.
Attempt outcomes come from the oracle `att`; context cancellation is the
oracle pair `cw` (done at the wait boundary before attempt `i`) and `cr`
(done when attempt `i`'s transport fails).  Request construction never
fails for the fixed valid URLs the program uses, so that branch is not
modelled. -/

inductive AttemptOutcome
  | transportFail
  | httpStatus (code : Nat)

inductive LastCause
  | transportFail
  | badStatus (code : Nat)
  deriving DecidableEq

inductive ReqResult
  | success (attemptIdx : Nat)
  | cancelled
  | exhausted (last : Option LastCause)
  deriving DecidableEq

/-- Observable trace of one `DoRequest` run: its result, the backoff waits
actually slept (in seconds, in order) and the number of attempts issued. -/
structure ReqTrace where
  result : ReqResult
  waits : List Nat
  attemptsMade : Nat
  deriving DecidableEq

def MaxRetries : Nat := 3
def RetryDelaySec : Nat := 2

/-- The wait performed at the top of an iteration: the current delay is slept
before every attempt but the first. -/
def pushWait (attempt delay : Nat) (waits : List Nat) : List Nat :=
  if 0 < attempt then delay :: waits else waits

/-- `delay = time.Duration(float64(delay) * RetryBackoff)` after a wait. -/
def nextDelay (attempt delay : Nat) : Nat :=
  if 0 < attempt then delay * 2 else delay

def doRequestLoop (cw cr : Nat → Bool) (att : Nat → AttemptOutcome) :
    Nat → Nat → Nat → Option LastCause → List Nat → ReqTrace
  | 0, attempt, _, lastErr, waits => ⟨.exhausted lastErr, waits.reverse, attempt⟩
  | remaining + 1, attempt, delay, lastErr, waits =>
    if 0 < attempt && cw attempt then ⟨.cancelled, waits.reverse, attempt⟩
    else
      match att attempt with
      | .transportFail =>
        if cr attempt then ⟨.cancelled, (pushWait attempt delay waits).reverse, attempt + 1⟩
        else doRequestLoop cw cr att remaining (attempt + 1) (nextDelay attempt delay)
          (some .transportFail) (pushWait attempt delay waits)
      | .httpStatus code =>
        if code = 200 then ⟨.success attempt, (pushWait attempt delay waits).reverse, attempt + 1⟩
        else doRequestLoop cw cr att remaining (attempt + 1) (nextDelay attempt delay)
          (some (.badStatus code)) (pushWait attempt delay waits)

/-- `DoRequest`. -/
def DoRequest (cw cr : Nat → Bool) (att : Nat → AttemptOutcome) : ReqTrace :=
  doRequestLoop cw cr att MaxRetries 0 RetryDelaySec none []

def noCancel : Nat → Bool := fun _ => false

/-- An attempt that does not succeed: transport failure or non-200 status. -/
def failedAttempt : AttemptOutcome → Prop
  | .transportFail => True
  | .httpStatus code => code ≠ 200

instance : DecidablePred failedAttempt := by
  intro o
  cases o <;> simp [failedAttempt] <;> infer_instance

/-- The `lastErr` cause an attempt outcome records. -/
def causeOf : AttemptOutcome → LastCause
  | .transportFail => .transportFail
  | .httpStatus code => .badStatus code

/-- Expected backoff waits before attempt `i`: 2s, 4s, ... doubling. -/
def backoffs (i : Nat) : List Nat := (List.range i).map (fun j => 2 * 2 ^ j)

/-! ## Atomic download (`internal/utils` shared file, `DownloadFile`)

The one destination file `dest` and its staging sibling `dest + ".part"`
are the state; contents are byte lists, the response body is `body`.
The fault oracle selects which OS primitive fails; `writeOutcome` covers
the streamed copy (complete, I/O error after `k` bytes, or context
cancellation after `k` bytes).  Paths of the shape taken by the source:
the stale `.part` is removed (best effort) before `os.Create` truncates
it anyway; the copy runs; on copy failure/cancellation the deferred
cleanup closes and removes the staging file (best effort); after a clean
close the existing destination is removed and the staging file renamed
onto it — failures there return without any cleanup. -/

structure DlState where
  dest : Option (List Nat)
  part : Option (List Nat)
  deriving DecidableEq

inductive WriteOutcome
  | complete
  | ioErrAfter (k : Nat)
  | cancelledAfter (k : Nat)
  deriving DecidableEq

structure DlFaults where
  requestFails : Bool
  staleRemoveFails : Bool
  createFails : Bool
  writeOutcome : WriteOutcome
  cleanupRemoveFails : Bool
  closeFails : Bool
  destRemoveFails : Bool
  renameFails : Bool
  deriving DecidableEq

inductive DlResult
  | ok
  | requestErr
  | createErr
  | writeErr
  | ctxErr
  | closeErr
  | destRemoveErr
  | renameErr
  deriving DecidableEq

/-- `DownloadFile`. -/
def DownloadFile (f : DlFaults) (body : List Nat) (s : DlState) : DlResult × DlState :=
  if f.requestFails then (.requestErr, s)
  else
    let s1 : DlState := if s.part.isSome && !f.staleRemoveFails then { s with part := none } else s
    if f.createFails then (.createErr, s1)
    else
      let s2 : DlState := { s1 with part := some [] }
      match f.writeOutcome with
      | .ioErrAfter k =>
        let s3 : DlState := { s2 with part := some (body.take k) }
        (.writeErr, if f.cleanupRemoveFails then s3 else { s3 with part := none })
      | .cancelledAfter k =>
        let s3 : DlState := { s2 with part := some (body.take k) }
        (.ctxErr, if f.cleanupRemoveFails then s3 else { s3 with part := none })
      | .complete =>
        let s3 : DlState := { s2 with part := some body }
        if f.closeFails then
          (.closeErr, if f.cleanupRemoveFails then s3 else { s3 with part := none })
        else if s3.dest.isSome then
          if f.destRemoveFails then (.destRemoveErr, s3)
          else if f.renameFails then (.renameErr, { s3 with dest := none })
          else (.ok, { dest := some body, part := none })
        else if f.renameFails then (.renameErr, s3)
        else (.ok, { dest := some body, part := none })

/-! ## Self-update install (`internal/update/update.go`, `InstallUpdate`)

Three paths matter: the live executable, its `.old` backup and the staged
`.new` download; contents are ids.  The Windows and non-Windows branches of
the source are identical but for the trailing `chmod`.  A rename is atomic:
it either fully happens or (flagged faulty, or source missing) changes
nothing. -/

structure ExeFs where
  live : Option Nat
  backup : Option Nat
  staged : Option Nat
  deriving DecidableEq

structure InstallFaults where
  removeBackupFails : Bool
  backupRenameFails : Bool
  installRenameFails : Bool
  restoreRenameFails : Bool
  chmodFails : Bool
  deriving DecidableEq

inductive InstallResult
  | ok
  | removeBackupErr
  | backupErr
  | restoredErr
  | unrecoverableErr
  | chmodErr
  deriving DecidableEq

/-- `InstallUpdate`. -/
def InstallUpdate (windows : Bool) (f : InstallFaults) (s : ExeFs) : InstallResult × ExeFs :=
  if s.backup.isSome && f.removeBackupFails then (.removeBackupErr, s)
  else
    let s1 : ExeFs := { s with backup := none }
    if f.backupRenameFails || s1.live.isNone then (.backupErr, s1)
    else
      let s2 : ExeFs := { s1 with backup := s1.live, live := none }
      if f.installRenameFails || s2.staged.isNone then
        if f.restoreRenameFails || s2.backup.isNone then (.unrecoverableErr, s2)
        else (.restoredErr, { s2 with live := s2.backup, backup := none })
      else
        let s3 : ExeFs := { s2 with live := s2.staged, staged := none }
        if !windows && f.chmodFails then (.chmodErr, s3)
        else (.ok, s3)

/-! ## The launch sequence (`main.go`, `run`)

`run` is a single sequential function; every external call is an oracle
field of `RunEnv` and every `return` site of the source is a
`RunOutcome`.  Events record the warnings the claims are about and the
final hand-off to `server.RunServer`. -/

inductive RunEvent
  | warnedLauncherCheckFailed
  | warnedJarCheckFailed
  | startedServer
  deriving DecidableEq

inductive RunOutcome
  | errConfigNil
  | restartAfterUpdate
  | errChdir
  | errJava
  | errEula
  | errFindJar
  | errNoJar
  | errDownloadJar
  | errRedownload
  | errJarUpdate
  | errBackup
  | serverOk
  | serverFailed
  deriving DecidableEq

structure RunEnv where
  cfgNil : Bool
  launcherCheck : Except Unit Bool
  autoUpdateLauncher : Bool
  promptLauncherYes : Bool
  launcherDownloadOk : Bool
  launcherValidateOk : Bool
  launcherInstallOk : Bool
  chdirNeeded : Bool
  chdirOk : Bool
  javaOk : Bool
  eulaOk : Bool
  findJarOk : Bool
  jarFound : Bool
  promptDownloadYes : Bool
  downloadJarOk : Bool
  loadChecksumOk : Bool
  checksumNonEmpty : Bool
  checksumMatches : Bool
  promptRedownloadYes : Bool
  redownloadOk : Bool
  jarCheck : Except Unit Bool
  autoUpdate : Bool
  promptJarYes : Bool
  jarUpdateDownloadOk : Bool
  autoBackup : Bool
  backupOk : Bool
  serverOk : Bool

/-- The launcher self-update block of `run` (`main.go` lines 171-221).
`none` means control flows on; an update-check error is logged as a warning
and treated as no update; only a fully successful install returns early
(asking for a restart). -/
def runLauncherPhase (e : RunEnv) : Option RunOutcome × List RunEvent :=
  match e.launcherCheck with
  | .error _ => (none, [.warnedLauncherCheckFailed])
  | .ok hasUpdate =>
    if hasUpdate then
      if e.autoUpdateLauncher || e.promptLauncherYes then
        if !e.launcherDownloadOk then (none, [])
        else if !e.launcherValidateOk then (none, [])
        else if !e.launcherInstallOk then (none, [])
        else (some .restartAfterUpdate, [])
      else (none, [])
    else (none, [])

/-- The managed-JAR update check and tail of `run` (`main.go` lines
323-379): a check error is logged as a warning and skipped over. -/
def runTail (e : RunEnv) (ev : List RunEvent) : RunOutcome × List RunEvent :=
  let ev1 := match e.jarCheck with
    | .error _ => ev ++ [.warnedJarCheckFailed]
    | .ok _ => ev
  let jarHasUpdate := match e.jarCheck with
    | .error _ => false
    | .ok h => h
  if jarHasUpdate && (e.autoUpdate || e.promptJarYes) && !e.jarUpdateDownloadOk then
    (.errJarUpdate, ev1)
  else if e.autoBackup && !e.backupOk then (.errBackup, ev1)
  else ((if e.serverOk then .serverOk else .serverFailed), ev1 ++ [.startedServer])

/-- The body of `run` after the launcher self-update block (`main.go` lines
223-379): working-directory change, Java check, EULA, JAR acquisition and
checksum block, then the tail. -/
def runBody (e : RunEnv) (ev : List RunEvent) : RunOutcome × List RunEvent :=
  if e.chdirNeeded && !e.chdirOk then (.errChdir, ev)
  else if !e.javaOk then (.errJava, ev)
  else if !e.eulaOk then (.errEula, ev)
  else if !e.findJarOk then (.errFindJar, ev)
  else if !e.jarFound then
    if !e.promptDownloadYes then (.errNoJar, ev)
    else if !e.downloadJarOk then (.errDownloadJar, ev)
    else runTail e ev
  else if e.loadChecksumOk && e.checksumNonEmpty && !e.checksumMatches &&
      e.promptRedownloadYes && !e.redownloadOk then (.errRedownload, ev)
  else runTail e ev

/-- `run` from `main.go`. -/
def run (e : RunEnv) : RunOutcome × List RunEvent :=
  if e.cfgNil then (.errConfigNil, [])
  else
    match runLauncherPhase e with
    | (some outcome, ev) => (outcome, ev)
    | (none, ev) => runBody e ev

/-! ## Theorems -/

theorem takeComp_eq (s : List Char) : ∀ n v,
    takeComp n v s = (wdacc n (firstGroup s), v && (firstGroup s).all isDigitCh, afterDot s) := by
  induction s with
  | nil => intro n v; simp [takeComp, firstGroup, afterDot, wdacc]
  | cons c r ih =>
    intro n v
    by_cases hdot : c = '.'
    · simp [takeComp, firstGroup, afterDot, wdacc, hdot]
    · by_cases hdig : isDigitCh c = true
      · simp [takeComp, firstGroup, afterDot, hdot, hdig, ih, wdacc]
      · simp [takeComp, firstGroup, afterDot, hdot, hdig, ih, wdacc]

theorem component_eq (s : List Char) :
    component s = (wcompVal (firstGroup s), afterDot s) := by
  simp [component, takeComp_eq, wcompVal]

theorem splitOnDot_eq (s : List Char) :
    splitOnDot s = firstGroup s :: (if hasDot s then splitOnDot (afterDot s) else []) := by
  induction s with
  | nil => simp [splitOnDot, firstGroup, hasDot, afterDot]
  | cons c r ih =>
    by_cases hdot : c = '.'
    · simp [splitOnDot, firstGroup, hasDot, afterDot, hdot]
    · simp only [splitOnDot, hdot, if_false, ih]
      have : hasDot (c :: r) = hasDot r := by simp [hasDot, hdot]
      rw [this]
      cases hd : hasDot r <;>
        simp [firstGroup, afterDot, hdot, hd]

theorem afterDot_nil_of_not_hasDot (s : List Char) (h : hasDot s = false) :
    afterDot s = [] := by
  induction s with
  | nil => simp [afterDot]
  | cons c r ih =>
    simp only [hasDot, List.any_cons, Bool.or_eq_false_iff] at h
    have hdot : ¬ c = '.' := by
      intro hc; simp [hc] at h
    simp [afterDot, hdot]
    exact ih h.2

theorem afterDot_length_le (s : List Char) : (afterDot s).length ≤ s.length := by
  induction s with
  | nil => simp [afterDot]
  | cons c r ih =>
    by_cases hdot : c = '.' <;> simp [afterDot, hdot] <;> omega

theorem afterDot_length_lt (s : List Char) (h : s ≠ []) :
    (afterDot s).length < s.length := by
  cases s with
  | nil => simp at h
  | cons c r =>
    by_cases hdot : c = '.'
    · simp [afterDot, hdot]
    · have := afterDot_length_le r
      simp [afterDot, hdot]
      omega

theorem padCmp_zeroL (ys : List Nat) : padCmp [0] ys = padCmpNil ys := by
  cases ys with
  | nil => simp [padCmp, padCmpNil]
  | cons y ys => simp [padCmp, padCmpNil]

theorem padCmp_zeroR (xs : List Nat) : padCmp xs [0] = padCmp xs [] := by
  cases xs with
  | nil => simp [padCmp, padCmpNil]
  | cons x xs => simp [padCmp]

theorem padCmp_cons_cons (x y : Nat) (xs ys : List Nat) :
    padCmp (x :: xs) (y :: ys) =
      (if x > y then 1 else if x < y then -1 else padCmp xs ys) := rfl

theorem cmpLoop_nil_nil (fuel : Nat) : cmpLoop fuel [] [] = 0 := by
  cases fuel <;> simp [cmpLoop]

theorem dacc_cons_digit (c : Char) (r : List Char) (n : Nat) (h : isDigitCh c = true) :
    dacc n (c :: r) = dacc (n * 10 + (c.toNat - 48)) r := by
  simp [dacc, h]

theorem wdacc_cons_digit (c : Char) (r : List Char) (n : Nat) (h : isDigitCh c = true) :
    wdacc n (c :: r) = wdacc ((n * 10 + (c.toNat - 48)) % 2 ^ 64) r := by
  simp [wdacc, h]

theorem dacc_le (g : List Char) : ∀ n, g.all isDigitCh = true → n ≤ dacc n g := by
  induction g with
  | nil => intro n _; simp [dacc]
  | cons c r ih =>
    intro n h
    simp only [List.all_cons, Bool.and_eq_true] at h
    rw [dacc_cons_digit c r n h.1]
    have hstep : n ≤ n * 10 + (c.toNat - 48) := by omega
    exact le_trans hstep (ih _ h.2)

/-- Without overflow the wrapped accumulation computes the exact value. -/
theorem wdacc_eq_dacc (g : List Char) : ∀ n, g.all isDigitCh = true →
    dacc n g < 2 ^ 63 → wdacc n g = dacc n g := by
  induction g with
  | nil => intro n _ _; simp [wdacc, dacc]
  | cons c r ih =>
    intro n hall hlt
    simp only [List.all_cons, Bool.and_eq_true] at hall
    rw [dacc_cons_digit c r n hall.1] at hlt ⊢
    have hstep : n * 10 + (c.toNat - 48) ≤ dacc (n * 10 + (c.toNat - 48)) r :=
      dacc_le r _ hall.2
    have hmod : (n * 10 + (c.toNat - 48)) % 2 ^ 64 = n * 10 + (c.toNat - 48) :=
      Nat.mod_eq_of_lt (by omega)
    rw [wdacc_cons_digit c r n hall.1, hmod, ih _ hall.2 hlt]

/-- Overflow-free components have the spec's value, read back as an `Int`. -/
theorem wcompVal_eq_compVal (g : List Char) (h : compVal g < 2 ^ 63) :
    wcompVal g = (compVal g : Int) := by
  unfold compVal at h ⊢
  unfold wcompVal
  by_cases hall : g.all isDigitCh = true
  · rw [if_pos hall] at h ⊢
    rw [if_pos hall, wdacc_eq_dacc g 0 hall h]
    unfold toSigned
    rw [if_pos h]
  · rw [if_neg hall] at h ⊢
    rw [if_neg hall]
    simp

/-- Bridge: with sufficient fuel and no component overflowing the 64-bit
`int`, the Go comparison loop computes exactly the reference comparison of
the dot-split component values. -/
theorem cmpLoop_eq_padCmp : ∀ fuel s1 s2, s1.length + s2.length ≤ fuel →
    (∀ g ∈ splitOnDot s1, compVal g < 2 ^ 63) →
    (∀ g ∈ splitOnDot s2, compVal g < 2 ^ 63) →
    cmpLoop fuel s1 s2 = padCmp ((splitOnDot s1).map compVal) ((splitOnDot s2).map compVal) := by
  intro fuel
  induction fuel with
  | zero =>
    intro s1 s2 h hov1 hov2
    have h1 : s1 = [] := by
      cases s1 with
      | nil => rfl
      | cons a l =>
        exfalso
        simp only [List.length_cons] at h
        omega
    have h2 : s2 = [] := by
      cases s2 with
      | nil => rfl
      | cons a l =>
        exfalso
        simp only [List.length_cons] at h
        omega
    subst h1; subst h2
    simp [cmpLoop, splitOnDot, compVal, dacc, padCmp, padCmpNil]
  | succ fuel ih =>
    intro s1 s2 h hov1 hov2
    by_cases hboth : s1.isEmpty && s2.isEmpty
    · have h1 : s1 = [] := by
        cases s1 with
        | nil => rfl
        | cons a l => simp at hboth
      have h2 : s2 = [] := by
        cases s2 with
        | nil => rfl
        | cons a l => simp at hboth
      subst h1; subst h2
      simp [cmpLoop, splitOnDot, compVal, dacc, padCmp, padCmpNil]
    · have hne : s1 ≠ [] ∨ s2 ≠ [] := by
        by_contra hc
        push_neg at hc
        simp [hc.1, hc.2] at hboth
      have hlen : (afterDot s1).length + (afterDot s2).length ≤ fuel := by
        rcases hne with h1 | h2
        · have := afterDot_length_lt s1 h1
          have := afterDot_length_le s2
          omega
        · have := afterDot_length_lt s2 h2
          have := afterDot_length_le s1
          omega
      have hg1 : compVal (firstGroup s1) < 2 ^ 63 := by
        apply hov1
        rw [splitOnDot_eq s1]
        exact List.mem_cons_self _ _
      have hg2 : compVal (firstGroup s2) < 2 ^ 63 := by
        apply hov2
        rw [splitOnDot_eq s2]
        exact List.mem_cons_self _ _
      have hov1' : ∀ g ∈ splitOnDot (afterDot s1), compVal g < 2 ^ 63 := by
        intro g hg
        by_cases hd : hasDot s1 = true
        · apply hov1
          rw [splitOnDot_eq s1, if_pos hd]
          exact List.mem_cons_of_mem _ hg
        · rw [afterDot_nil_of_not_hasDot s1 (by simpa using hd)] at hg
          simp only [splitOnDot, List.mem_singleton] at hg
          subst hg
          simp [compVal, dacc]
      have hov2' : ∀ g ∈ splitOnDot (afterDot s2), compVal g < 2 ^ 63 := by
        intro g hg
        by_cases hd : hasDot s2 = true
        · apply hov2
          rw [splitOnDot_eq s2, if_pos hd]
          exact List.mem_cons_of_mem _ hg
        · rw [afterDot_nil_of_not_hasDot s2 (by simpa using hd)] at hg
          simp only [splitOnDot, List.mem_singleton] at hg
          subst hg
          simp [compVal, dacc]
      have ihad := ih (afterDot s1) (afterDot s2) hlen hov1' hov2'
      have step : cmpLoop (fuel + 1) s1 s2 =
          (if compVal (firstGroup s1) > compVal (firstGroup s2) then 1
           else if compVal (firstGroup s1) < compVal (firstGroup s2) then -1
           else cmpLoop fuel (afterDot s1) (afterDot s2)) := by
        simp only [cmpLoop, hboth, Bool.false_eq_true, if_false, component_eq,
          wcompVal_eq_compVal _ hg1, wcompVal_eq_compVal _ hg2, gt_iff_lt, Nat.cast_lt]
      rw [splitOnDot_eq s1, splitOnDot_eq s2, step]
      have hcv : compVal [] = 0 := by simp [compVal, dacc]
      cases hd1 : hasDot s1 <;> cases hd2 : hasDot s2 <;>
        simp only [Bool.false_eq_true, if_false, if_true, List.map_cons, List.map_nil,
          padCmp_cons_cons]
      · rw [afterDot_nil_of_not_hasDot s1 hd1, afterDot_nil_of_not_hasDot s2 hd2,
          cmpLoop_nil_nil]
        simp [padCmp, padCmpNil]
      · rw [afterDot_nil_of_not_hasDot s1 hd1]
        rw [afterDot_nil_of_not_hasDot s1 hd1] at ihad
        rw [ihad]
        simp only [splitOnDot, List.map_cons, List.map_nil, hcv, padCmp_zeroL]
        rfl
      · rw [afterDot_nil_of_not_hasDot s2 hd2]
        rw [afterDot_nil_of_not_hasDot s2 hd2] at ihad
        rw [ihad]
        simp only [splitOnDot, List.map_cons, List.map_nil, hcv, padCmp_zeroR]
      · rw [ihad]

/-- Antisymmetry of the Go comparison loop, fuel-uniform.  Holds regardless
of wraparound: each side computes the same signed component values. -/
theorem cmpLoop_antisymm : ∀ fuel s1 s2, cmpLoop fuel s1 s2 = - cmpLoop fuel s2 s1 := by
  intro fuel
  induction fuel with
  | zero => intro s1 s2; simp [cmpLoop]
  | succ fuel ih =>
    have key : ∀ t1 t2 : List Char, (t1.isEmpty && t2.isEmpty) = false →
        (t2.isEmpty && t1.isEmpty) = false →
        cmpLoop (fuel + 1) t1 t2 = - cmpLoop (fuel + 1) t2 t1 := by
      intro t1 t2 hb hb'
      simp only [cmpLoop, hb, hb', Bool.false_eq_true, if_false]
      rcases lt_trichotomy (component t1).1 (component t2).1 with hlt | heq | hgt
      · rw [if_neg (by omega : ¬ (component t1).1 > (component t2).1), if_pos hlt,
          if_pos (by omega : (component t2).1 > (component t1).1)]
      · rw [heq, if_neg (by omega : ¬ (component t2).1 > (component t2).1),
          if_neg (by omega : ¬ (component t2).1 < (component t2).1),
          if_neg (by omega : ¬ (component t2).1 > (component t2).1),
          if_neg (by omega : ¬ (component t2).1 < (component t2).1)]
        exact ih _ _
      · rw [if_pos hgt, if_neg (by omega : ¬ (component t2).1 > (component t1).1),
          if_pos (by omega : (component t2).1 < (component t1).1)]
        rfl
    intro s1 s2
    match s1, s2 with
    | [], [] => simp [cmpLoop]
    | [], c :: r => exact key [] (c :: r) (by simp) (by simp)
    | c :: r, [] => exact key (c :: r) [] (by simp) (by simp)
    | a :: b, c :: r => exact key (a :: b) (c :: r) (by simp) (by simp)

/-- The Go comparator agrees with the reference comparator whenever no
component value reaches `2^63` (no `int` overflow). -/
theorem compareVersions_eq_spec (a b : String)
    (ha : ∀ g ∈ splitOnDot a.data, compVal g < 2 ^ 63)
    (hb : ∀ g ∈ splitOnDot b.data, compVal g < 2 ^ 63) :
    compareVersions a b = specCompare a b := by
  have ha' : a.data.length = a.length := rfl
  have hb' : b.data.length = b.length := rfl
  exact cmpLoop_eq_padCmp (a.length + b.length + 1) a.data b.data (by omega) ha hb

/-- The loop's answer does not depend on the fuel, once sufficient. -/
theorem cmpLoop_fuel_irrel : ∀ fuel1 fuel2 s1 s2,
    s1.length + s2.length ≤ fuel1 → s1.length + s2.length ≤ fuel2 →
    cmpLoop fuel1 s1 s2 = cmpLoop fuel2 s1 s2 := by
  intro fuel1
  induction fuel1 with
  | zero =>
    intro fuel2 s1 s2 h1 h2
    have e1 : s1 = [] := by
      cases s1 <;> simp_all
    have e2 : s2 = [] := by
      cases s2 <;> simp_all
    subst e1; subst e2
    rw [cmpLoop_nil_nil, cmpLoop_nil_nil]
  | succ fuel1 ih =>
    intro fuel2 s1 s2 h1 h2
    by_cases hboth : (s1.isEmpty && s2.isEmpty) = true
    · have e1 : s1 = [] := by
        cases s1 <;> simp_all
      have e2 : s2 = [] := by
        cases s2 <;> simp_all
      subst e1; subst e2
      rw [cmpLoop_nil_nil, cmpLoop_nil_nil]
    · have hne : s1 ≠ [] ∨ s2 ≠ [] := by
        by_contra hc
        push_neg at hc
        simp [hc.1, hc.2] at hboth
      have hpos : 0 < s1.length + s2.length := by
        rcases hne with hn | hn
        · have := List.length_pos.mpr hn
          omega
        · have := List.length_pos.mpr hn
          omega
      cases fuel2 with
      | zero => omega
      | succ fuel2' =>
        have hrecl : (afterDot s1).length + (afterDot s2).length ≤ fuel1 := by
          rcases hne with hn | hn
          · have := afterDot_length_lt s1 hn
            have := afterDot_length_le s2
            omega
          · have := afterDot_length_lt s2 hn
            have := afterDot_length_le s1
            omega
        have hrecr : (afterDot s1).length + (afterDot s2).length ≤ fuel2' := by
          rcases hne with hn | hn
          · have := afterDot_length_lt s1 hn
            have := afterDot_length_le s2
            omega
          · have := afterDot_length_lt s2 hn
            have := afterDot_length_le s1
            omega
        simp only [cmpLoop, hboth, Bool.false_eq_true, if_false, component_eq]
        rw [ih fuel2' (afterDot s1) (afterDot s2) hrecl hrecr]

/-- One step of the loop treats `"dev"` exactly like `"0"`: both contribute
the component value 0 and an empty remainder. -/
theorem cmpLoop_dev_step (fuel : Nat) (s : List Char) :
    cmpLoop fuel s "dev".data = cmpLoop fuel s "0".data := by
  cases fuel with
  | zero => rfl
  | succ fuel =>
    have hdev : component "dev".data = (0, []) := by decide
    have h0 : component "0".data = (0, []) := by decide
    have e1 : ("dev".data.isEmpty : Bool) = false := rfl
    have e2 : ("0".data.isEmpty : Bool) = false := rfl
    simp only [cmpLoop, hdev, h0, e1, e2, Bool.and_false]

/-- `"dev"` is compared exactly like the all-zero version `"0"`.  Invariant
under wraparound: both strings' single components are exactly 0. -/
theorem compareVersions_dev (l : String) :
    compareVersions l "dev" = compareVersions l "0" := by
  unfold compareVersions
  rw [cmpLoop_dev_step]
  apply cmpLoop_fuel_irrel
  · have h1 : l.data.length = l.length := rfl
    have h2 : ("0".data).length = 1 := rfl
    have h3 : ("dev" : String).length = 3 := rfl
    omega
  · have h1 : l.data.length = l.length := rfl
    have h2 : ("0".data).length = 1 := rfl
    have h3 : ("0" : String).length = 1 := rfl
    omega

theorem utf8Bytes_of_hex (c : Char) (h : isHexDigitCh c = true) : utf8Bytes c = 1 := by
  simp only [isHexDigitCh, Bool.or_eq_true, Bool.and_eq_true, decide_eq_true_eq] at h
  unfold utf8Bytes
  rw [if_pos]
  omega

theorem sumBytes_eq_length (l : List Char) (h : ∀ c ∈ l, isHexDigitCh c = true) :
    (l.map utf8Bytes).sum = l.length := by
  induction l with
  | nil => simp
  | cons c r ih =>
    simp only [List.map_cons, List.sum_cons, List.length_cons]
    rw [utf8Bytes_of_hex c (h c (by simp)), ih (fun x hx => h x (by simp [hx]))]
    omega

theorem byteLen_eq_length_of_hex (s : String) (h : s.data.all isHexDigitCh = true) :
    byteLen s = s.length := by
  have hall : ∀ c ∈ s.data, isHexDigitCh c = true := fun c hc => List.all_eq_true.mp h c hc
  unfold byteLen
  rw [sumBytes_eq_length _ hall]
  rfl

/-! ### Claim theorems -/

/-- C6 counterexample: the claimed equality with the reference comparator
fails for all strings only because the code accumulates components in a
native 64-bit `int`: the 19-digit component 9223372036854775808 (`2^63`)
wraps negative, so the code answers -1 where the reference comparator
answers 1. -/
theorem claim_C6_counterexample :
    compareVersions "9223372036854775808" "1" = -1 ∧
    specCompare "9223372036854775808" "1" = 1 ∧
    compareVersions "9223372036854775808" "1" ≠ specCompare "9223372036854775808" "1" :=
  ⟨by decide, by decide, by decide⟩

/-- C6 amended: `compareVersions a b` equals the reference comparator —
split on dots, non-numeric or missing components valued 0, shorter string
zero-padded, sign of the first differing pair — for all version strings
whose components each have numeric value below `2^63` (no 64-bit `int`
overflow; every real version tag qualifies); components of 19 or more
digits wrap in the native `int` and can invert the answer.  In particular
`compare "1.0" "1.0.0" = 0`, `compare "1.1" "1.0.0" = 1` and
`compare "2.0.0" "1.9.9" = 1`. -/
theorem claim_C6_amended :
    (∀ a b : String, (∀ g ∈ splitOnDot a.data, compVal g < 2 ^ 63) →
      (∀ g ∈ splitOnDot b.data, compVal g < 2 ^ 63) →
      compareVersions a b = specCompare a b) ∧
    compareVersions "1.0" "1.0.0" = 0 ∧
    compareVersions "1.1" "1.0.0" = 1 ∧
    compareVersions "2.0.0" "1.9.9" = 1 :=
  ⟨fun a b ha hb => compareVersions_eq_spec a b ha hb, by decide, by decide, by decide⟩

/-- C6 witness: the amended equality at ordinary tags (components far below
the overflow bound). -/
theorem claim_C6_witness :
    compareVersions "10.4.2" "10.4.10" = specCompare "10.4.2" "10.4.10" :=
  claim_C6_amended.1 "10.4.2" "10.4.10" (by decide) (by decide)

/-- C9: the version comparator is antisymmetric —
`compareVersions a b = - compareVersions b a` for all strings — and hence
`compareVersions x x = 0`. -/
theorem claim_C9_compare_antisymm :
    (∀ a b : String, compareVersions a b = - compareVersions b a) ∧
    (∀ x : String, compareVersions x x = 0) := by
  constructor
  · intro a b
    unfold compareVersions
    rw [Nat.add_comm b.length a.length]
    exact cmpLoop_antisymm _ _ _
  · intro x
    have h : compareVersions x x = - compareVersions x x := by
      unfold compareVersions
      exact cmpLoop_antisymm _ _ _
    omega

/-- C3 counterexample: the claim says a launcher whose current version is the
unversioned development build `"dev"` never reports an update; but with the
feed reporting tag `v2.0.0`, `CheckForUpdate` on current version `"dev"`
returns update-available (the claimed no-update result is refuted). -/
theorem claim_C3_counterexample :
    CheckForUpdate "dev" (.release "v2.0.0") = .ok (true, some "v2.0.0") ∧
    CheckForUpdate "dev" (.release "v2.0.0") ≠ .ok (false, none) := by
  have h : CheckForUpdate "dev" (.release "v2.0.0") = .ok (true, some "v2.0.0") := by rfl
  refine ⟨h, ?_⟩
  rw [h]
  intro hcontra
  simp at hcontra

/-- C3 amended: `GetCurrentVersion` does yield `"dev"` when no release
version is embedded and git provides none, but `CheckForUpdate` does not
special-case it: `"dev"` is compared exactly like the all-zero version
`"0"`, so an update is reported for a dev build precisely when the
normalised latest tag compares greater than `"0"` (e.g. any ordinary
release tag). -/
theorem claim_C3_amended :
    GetCurrentVersion "dev" none = "dev" ∧
    GetCurrentVersion "" none = "dev" ∧
    (∀ tag, normalizeVersion tag ≠ "" →
      (CheckForUpdate "dev" (.release tag) = .ok (true, some tag) ↔
        0 < compareVersions (normalizeVersion tag) "0")) := by
  refine ⟨rfl, rfl, ?_⟩
  intro tag h
  have key : CheckForUpdate "dev" (.release tag) =
      (if compareVersions (normalizeVersion tag) "0" ≤ 0 then
        Except.ok (false, none) else Except.ok (true, some tag)) := by
    show (if (decide (("dev" : String) = "") || decide (normalizeVersion tag = "")) = true then
        (Except.ok (false, none) : Except CheckErr (Bool × Option String))
      else if compareVersions (normalizeVersion tag) "dev" ≤ 0 then Except.ok (false, none)
      else Except.ok (true, some tag)) = _
    rw [compareVersions_dev]
    simp [h]
  rw [key]
  by_cases hc : compareVersions (normalizeVersion tag) "0" ≤ 0
  · rw [if_pos hc]
    constructor
    · intro heq
      exact absurd heq (by simp)
    · intro hlt
      exact absurd hlt (by omega)
  · rw [if_neg hc]
    constructor
    · intro _
      omega
    · intro _
      rfl

/-- C3 witness: the amended theorem applied to the tag `v2.0.0`. -/
theorem claim_C3_witness :
    normalizeVersion "v2.0.0" ≠ "" ∧
    (CheckForUpdate "dev" (.release "v2.0.0") = .ok (true, some "v2.0.0") ↔
      0 < compareVersions (normalizeVersion "v2.0.0") "0") :=
  ⟨by decide, claim_C3_amended.2.2 "v2.0.0" (by decide)⟩

/-- C8: `LoadChecksumFile` returns Empty (`ok none`) for a missing sidecar;
for present content it trims surrounding whitespace and succeeds exactly on
64 hex characters, otherwise (wrong length — e.g. 63 or 65 characters — or
any non-hex character) it returns an error. -/
theorem claim_C8_load_checksum :
    LoadChecksumFile .missing = .ok none ∧
    (∀ d, (trimSpace d).length = 64 → (trimSpace d).data.all isHexDigitCh = true →
      LoadChecksumFile (.content d) = .ok (some (trimSpace d))) ∧
    (∀ d, (trimSpace d).length ≠ 64 → ∃ e, LoadChecksumFile (.content d) = .error e) ∧
    (∀ d, (trimSpace d).data.all isHexDigitCh = false →
      ∃ e, LoadChecksumFile (.content d) = .error e) := by
  refine ⟨rfl, ?_, ?_, ?_⟩
  · intro d hlen hhex
    have hb : byteLen (trimSpace d) = 64 := by
      rw [byteLen_eq_length_of_hex _ hhex, hlen]
    simp [LoadChecksumFile, hb, hhex]
  · intro d hlen
    by_cases hb : byteLen (trimSpace d) = 64
    · have hhex : (trimSpace d).data.all isHexDigitCh = false := by
        cases hfin : (trimSpace d).data.all isHexDigitCh
        · rfl
        · have := byteLen_eq_length_of_hex _ hfin
          omega
      exact ⟨.nonHex, by simp [LoadChecksumFile, hb, hhex]⟩
    · exact ⟨.badLength (byteLen (trimSpace d)), by simp [LoadChecksumFile, hb]⟩
  · intro d hhex
    by_cases hb : byteLen (trimSpace d) = 64
    · exact ⟨.nonHex, by simp [LoadChecksumFile, hb, hhex]⟩
    · exact ⟨.badLength (byteLen (trimSpace d)), by simp [LoadChecksumFile, hb]⟩

/-- C8 witness: a sidecar holding 64 hex characters surrounded by whitespace
loads successfully. -/
theorem claim_C8_witness :
    LoadChecksumFile
        (.content " 0123456789abcdef0123456789abcdef0123456789abcdef0123456789abcdef\n") =
      .ok (some (trimSpace
        " 0123456789abcdef0123456789abcdef0123456789abcdef0123456789abcdef\n")) :=
  claim_C8_load_checksum.2.1 _ (by decide) (by decide)

/-- C7 counterexample: the claim says a 5-byte non-magic file fails with the
BadMagic error, but `ValidateJarFile` on the 5-byte file `[1,2,3,4,5]`
reports the too-small error (the 22-byte floor precedes the magic check). -/
theorem claim_C7_counterexample :
    (ValidateJarFile (fun _ => none) (some [1, 2, 3, 4, 5])).1 = .error (.tooSmall 5) ∧
    (ValidateJarFile (fun _ => none) (some [1, 2, 3, 4, 5])).1 ≠ .error (.badMagic 1 2) := by
  have h : (ValidateJarFile (fun _ => none) (some [1, 2, 3, 4, 5])).1 =
      .error (.tooSmall 5) := rfl
  refine ⟨h, ?_⟩
  rw [h]
  intro hcontra
  simp at hcontra

/-- C7 amended: a zero-byte file fails with the Empty error; a 5-byte file
fails with the TooSmall error (the 22-byte structural floor is checked
before the magic bytes, so BadMagic only arises for files of at least 22
bytes whose first two bytes are not `PK`); a well-formed archive with at
least one entry and no manifest entry succeeds — the missing manifest is a
warning only. -/
theorem claim_C7_amended :
    (∀ zipEntries, (ValidateJarFile zipEntries (some [])).1 = .error .empty) ∧
    (∀ zipEntries (bytes : List Nat), bytes.length = 5 →
      (ValidateJarFile zipEntries (some bytes)).1 = .error (.tooSmall 5)) ∧
    (∀ zipEntries (bytes : List Nat), 22 ≤ bytes.length →
      (bytes.headD 0 ≠ 0x50 ∨ (bytes.drop 1).headD 0 ≠ 0x4B) →
      (ValidateJarFile zipEntries (some bytes)).1 =
        .error (.badMagic (bytes.headD 0) ((bytes.drop 1).headD 0))) ∧
    (∀ zipEntries (bytes : List Nat) entries, 22 ≤ bytes.length →
      bytes.headD 0 = 0x50 → (bytes.drop 1).headD 0 = 0x4B →
      zipEntries bytes = some entries → entries ≠ [] →
      (ValidateJarFile zipEntries (some bytes)).1 = .ok ()) := by
  refine ⟨fun z => rfl, ?_, ?_, ?_⟩
  · intro z bytes hlen
    simp only [ValidateJarFile]
    split_ifs with h0 h22 hm
    · exact absurd h0 (by omega)
    · rw [hlen]
    · exact absurd h22 (by omega)
    · exact absurd h22 (by omega)
  · intro z bytes hlen hmagic
    simp only [ValidateJarFile]
    split_ifs with h0 h22
    · exact absurd h0 (by omega)
    · exact absurd h22 (by omega)
    · rfl
  · intro z bytes entries hlen hb0 hb1 hz hne
    simp only [ValidateJarFile]
    split_ifs with h0 h22 hm
    · exact absurd h0 (by omega)
    · exact absurd h22 (by omega)
    · rcases hm with hbad | hbad
      · exact absurd hb0 hbad
      · exact absurd hb1 hbad
    · rw [hz]
      simp [hne]

/-- C7 witness: a 22-byte `PK`-headed archive with one entry and no manifest
validates successfully. -/
theorem claim_C7_witness :
    (ValidateJarFile (fun _ => some ["config.yml"])
      (some (0x50 :: 0x4B :: List.replicate 20 0))).1 = .ok () :=
  claim_C7_amended.2.2.2 _ _ ["config.yml"] (by decide) (by decide) (by decide) rfl
    (by decide)

/-- C10: `ValidateJarAndCalculateChecksum` performs exactly the check
sequence of `ValidateJarFile` (same success/error outcome and same
missing-manifest warning flag on every input) and on success additionally
returns the digest of the file's entire byte content. -/
theorem claim_C10_checksum_refines_validate :
    ∀ zipEntries sha256Hex file,
      ValidateJarAndCalculateChecksum zipEntries sha256Hex file =
        ((ValidateJarFile zipEntries file).1.map (fun _ => sha256Hex (file.getD [])),
         (ValidateJarFile zipEntries file).2) := by
  intro z sha file
  cases file with
  | none => rfl
  | some bytes =>
    simp only [ValidateJarFile, ValidateJarAndCalculateChecksum, Option.getD_some]
    split_ifs
    · rfl
    · rfl
    · rfl
    · cases hz : z bytes with
      | none => rfl
      | some entries =>
        cases entries with
        | nil => rfl
        | cons a l => rfl

theorem doRequestLoop_attempts_le (cw cr : Nat → Bool) (att : Nat → AttemptOutcome) :
    ∀ remaining attempt delay lastErr waits,
      (doRequestLoop cw cr att remaining attempt delay lastErr waits).attemptsMade ≤
        attempt + remaining := by
  intro remaining
  induction remaining with
  | zero =>
    intro attempt delay lastErr waits
    simp [doRequestLoop]
  | succ remaining ih =>
    intro attempt delay lastErr waits
    by_cases hcw : (0 < attempt && cw attempt) = true
    · simp [doRequestLoop, hcw]
    · cases hatt : att attempt with
      | transportFail =>
        by_cases hcr : cr attempt = true
        · simp [doRequestLoop, hcw, hatt, hcr]
        · simp only [doRequestLoop, hcw, hatt, hcr, Bool.false_eq_true, if_false]
          have h := ih (attempt + 1) (nextDelay attempt delay) (some .transportFail)
            (pushWait attempt delay waits)
          omega
      | httpStatus code =>
        by_cases h200 : code = 200
        · simp [doRequestLoop, hcw, hatt, h200]
        · simp only [doRequestLoop, hcw, hatt, h200, Bool.false_eq_true, if_false]
          have h := ih (attempt + 1) (nextDelay attempt delay) (some (.badStatus code))
            (pushWait attempt delay waits)
          omega

/-- C4: `DoRequest` makes at most 3 attempts; with an uncancelled context the
first attempt returning status 200 (all earlier ones having failed) yields
success at that attempt after backoff waits of 2s then 4s (doubling), and if
all 3 attempts fail the result is an error carrying the cause of the last
attempt (its transport error or non-200 status). -/
theorem claim_C4_do_request :
    (∀ cw cr att, (DoRequest cw cr att).attemptsMade ≤ 3) ∧
    (∀ att i, i < 3 → (∀ j, j < i → failedAttempt (att j)) → att i = .httpStatus 200 →
      DoRequest noCancel noCancel att = ⟨.success i, backoffs i, i + 1⟩) ∧
    (∀ att, (∀ j, j < 3 → failedAttempt (att j)) →
      DoRequest noCancel noCancel att =
        ⟨.exhausted (some (causeOf (att 2))), [2, 4], 3⟩) := by
  refine ⟨?_, ?_, ?_⟩
  · intro cw cr att
    have h := doRequestLoop_attempts_le cw cr att MaxRetries 0 RetryDelaySec none []
    simpa [DoRequest, MaxRetries] using h
  · intro att i hi hprev h200
    interval_cases i
    · rw [show backoffs 0 = [] from by decide]
      simp [DoRequest, doRequestLoop, MaxRetries, RetryDelaySec, noCancel, h200, pushWait]
    · rw [show backoffs 1 = [2] from by decide]
      have h0 := hprev 0 (by omega)
      rcases hatt0 : att 0 with _ | code0
      · simp [DoRequest, doRequestLoop, MaxRetries, RetryDelaySec, noCancel, hatt0, h200,
          pushWait, nextDelay]
      · rw [hatt0] at h0
        simp only [failedAttempt] at h0
        simp [DoRequest, doRequestLoop, MaxRetries, RetryDelaySec, noCancel, hatt0, h200, h0,
          pushWait, nextDelay]
    · rw [show backoffs 2 = [2, 4] from by decide]
      have h0 := hprev 0 (by omega)
      have h1 := hprev 1 (by omega)
      rcases hatt0 : att 0 with _ | code0 <;> rcases hatt1 : att 1 with _ | code1
      · simp [DoRequest, doRequestLoop, MaxRetries, RetryDelaySec, noCancel, hatt0, hatt1,
          h200, pushWait, nextDelay]
      · rw [hatt1] at h1
        simp only [failedAttempt] at h1
        simp [DoRequest, doRequestLoop, MaxRetries, RetryDelaySec, noCancel, hatt0, hatt1,
          h200, h1, pushWait, nextDelay]
      · rw [hatt0] at h0
        simp only [failedAttempt] at h0
        simp [DoRequest, doRequestLoop, MaxRetries, RetryDelaySec, noCancel, hatt0, hatt1,
          h200, h0, pushWait, nextDelay]
      · rw [hatt0] at h0
        rw [hatt1] at h1
        simp only [failedAttempt] at h0 h1
        simp [DoRequest, doRequestLoop, MaxRetries, RetryDelaySec, noCancel, hatt0, hatt1,
          h200, h0, h1, pushWait, nextDelay]
  · intro att hfail
    have h0 := hfail 0 (by omega)
    have h1 := hfail 1 (by omega)
    have h2 := hfail 2 (by omega)
    rcases hatt0 : att 0 with _ | code0 <;> rcases hatt1 : att 1 with _ | code1 <;>
      rcases hatt2 : att 2 with _ | code2 <;>
      [skip; skip; skip; skip; skip; skip; skip; skip] <;>
      rw [hatt0] at h0 <;> rw [hatt1] at h1 <;> rw [hatt2] at h2 <;>
      simp only [failedAttempt] at h0 h1 h2 <;>
      simp [DoRequest, doRequestLoop, MaxRetries, RetryDelaySec, noCancel, hatt0, hatt1,
        hatt2, causeOf, h0, h1, h2, pushWait, nextDelay]

/-- C4 witness: every attempt answering 503 exhausts the 3 tries with waits
2s and 4s and reports the last status. -/
theorem claim_C4_witness :
    DoRequest noCancel noCancel (fun _ => .httpStatus 503) =
      ⟨.exhausted (some (.badStatus 503)), [2, 4], 3⟩ :=
  claim_C4_do_request.2.2 (fun _ => .httpStatus 503)
    (by intro j hj; simp [failedAttempt])

/-- C2 counterexample: the claim requires every failing run to leave
destPath unchanged with no staging file, or fully updated; but when only the
final rename fails (prior destination present and removed, body fully
written), the run ends with destPath absent and the complete `.part`
staging file left behind. -/
theorem claim_C2_counterexample :
    DownloadFile ⟨false, false, false, .complete, false, false, false, true⟩ [1, 2]
        ⟨some [7], none⟩ = (.renameErr, ⟨none, some [1, 2]⟩) ∧
    ¬ ((((DownloadFile ⟨false, false, false, .complete, false, false, false, true⟩ [1, 2]
            ⟨some [7], none⟩).2.dest = some [7] ∨
         (DownloadFile ⟨false, false, false, .complete, false, false, false, true⟩ [1, 2]
            ⟨some [7], none⟩).2.dest = none) ∧
        (DownloadFile ⟨false, false, false, .complete, false, false, false, true⟩ [1, 2]
            ⟨some [7], none⟩).2.part = none) ∨
       (DownloadFile ⟨false, false, false, .complete, false, false, false, true⟩ [1, 2]
          ⟨some [7], none⟩).2.dest = some [1, 2]) := by
  constructor
  · rfl
  · decide

/-- C2 amended: destPath itself is never partially written — after every run
it is unchanged, absent (only when the pre-rename removal succeeded and the
final rename then failed), or holds the complete new content, and success
leaves the new content with no staging file; but on a remove or rename
failure the fully written staging file is left behind, and only the
request/write/cancel/close failure modes with a successful deferred cleanup
leave no staging file. -/
theorem claim_C2_amended (f : DlFaults) (body : List Nat) (s : DlState) :
    ((DownloadFile f body s).2.dest = s.dest ∨
      ((DownloadFile f body s).2.dest = none ∧ (DownloadFile f body s).1 = .renameErr) ∨
      ((DownloadFile f body s).2.dest = some body ∧ (DownloadFile f body s).1 = .ok)) ∧
    ((DownloadFile f body s).1 = .ok → (DownloadFile f body s).2 = ⟨some body, none⟩) ∧
    ((DownloadFile f body s).1 = .destRemoveErr ∨ (DownloadFile f body s).1 = .renameErr →
      (DownloadFile f body s).2.part = some body) ∧
    ((DownloadFile f body s).1 = .requestErr → (DownloadFile f body s).2 = s) ∧
    ((DownloadFile f body s).1 = .writeErr ∨ (DownloadFile f body s).1 = .ctxErr ∨
        (DownloadFile f body s).1 = .closeErr → f.cleanupRemoveFails = false →
      (DownloadFile f body s).2.part = none ∧ (DownloadFile f body s).2.dest = s.dest) := by
  obtain ⟨rq, st, cr, wo, cl, cls, dr, rn⟩ := f
  obtain ⟨d, p⟩ := s
  cases rq
  · cases wo <;> cases cl <;> cases cls <;> cases st <;> cases cr <;> cases dr <;>
      cases rn <;> cases d <;> cases p <;> simp [DownloadFile]
  · simp [DownloadFile]

/-- C2 witness: the amended theorem at a fault-free run over a fresh
destination. -/
theorem claim_C2_witness :
    (DownloadFile ⟨false, false, false, .complete, false, false, false, false⟩ [5]
      ⟨none, none⟩).2 = ⟨some [5], none⟩ :=
  (claim_C2_amended ⟨false, false, false, .complete, false, false, false, false⟩ [5]
    ⟨none, none⟩).2.1 (by decide)

/-- C1 counterexample: the claim requires the live path to hold the old or
the new executable in every outcome; but when the install rename and the
restore rename both fail, `InstallUpdate` ends with the live path empty
(old content parked at `.old`, new content still staged). -/
theorem claim_C1_counterexample :
    InstallUpdate false ⟨false, false, true, true, false⟩ ⟨some 0, none, some 1⟩ =
      (.unrecoverableErr, ⟨none, some 0, some 1⟩) ∧
    ¬ ((InstallUpdate false ⟨false, false, true, true, false⟩
          ⟨some 0, none, some 1⟩).2.live = some 0 ∨
       (InstallUpdate false ⟨false, false, true, true, false⟩
          ⟨some 0, none, some 1⟩).2.live = some 1) := by
  constructor
  · rfl
  · decide

/-- C1 amended: the install sequence deletes any prior `.old`, renames the
live executable to `.old`, then renames the staged file into place; if the
second rename fails the backup is renamed back (restored error, live path
holds the old content), and if that restore also fails an unrecoverable
error is returned — in that one double-failure outcome the live path holds
neither content (the old executable remains at the backup path); in every
other outcome the live path holds the old or the new content. -/
theorem claim_C1_amended (windows : Bool) (f : InstallFaults) (b0 : Option Nat)
    (oldC newC : Nat) :
    ((InstallUpdate windows f ⟨some oldC, b0, some newC⟩).1 = .unrecoverableErr ↔
      ((b0.isSome && f.removeBackupFails) = false ∧ f.backupRenameFails = false ∧
        f.installRenameFails = true ∧ f.restoreRenameFails = true)) ∧
    ((InstallUpdate windows f ⟨some oldC, b0, some newC⟩).1 ≠ .unrecoverableErr →
      (InstallUpdate windows f ⟨some oldC, b0, some newC⟩).2.live = some oldC ∨
      (InstallUpdate windows f ⟨some oldC, b0, some newC⟩).2.live = some newC) ∧
    ((InstallUpdate windows f ⟨some oldC, b0, some newC⟩).1 = .unrecoverableErr →
      (InstallUpdate windows f ⟨some oldC, b0, some newC⟩).2 =
        ⟨none, some oldC, some newC⟩) ∧
    ((InstallUpdate windows f ⟨some oldC, b0, some newC⟩).1 = .restoredErr →
      (InstallUpdate windows f ⟨some oldC, b0, some newC⟩).2 =
        ⟨some oldC, none, some newC⟩) ∧
    ((InstallUpdate windows f ⟨some oldC, b0, some newC⟩).1 = .ok →
      (InstallUpdate windows f ⟨some oldC, b0, some newC⟩).2 =
        ⟨some newC, some oldC, none⟩) := by
  obtain ⟨rb, br, ir, rr, ch⟩ := f
  cases windows <;> cases rb <;> cases br <;> cases ir <;> cases rr <;> cases ch <;>
    cases b0 <;> simp [InstallUpdate]

/-- C1 witness: the amended theorem's fault-free conclusion — the new
executable installed, the old one kept one generation deep at `.old`. -/
theorem claim_C1_witness :
    (InstallUpdate false ⟨false, false, false, false, false⟩ ⟨some 5, some 9, some 6⟩).2 =
      ⟨some 6, some 5, none⟩ :=
  (claim_C1_amended false ⟨false, false, false, false, false⟩ (some 9) 5 6).2.2.2.2
    (by decide)

theorem runTail_fst (e : RunEnv) (ev ev' : List RunEvent) :
    (runTail e ev).1 = (runTail e ev').1 := by
  cases hj : e.jarCheck <;> simp only [runTail, hj] <;> split_ifs <;> rfl

theorem runBody_fst (e : RunEnv) (ev ev' : List RunEvent) :
    (runBody e ev).1 = (runBody e ev').1 := by
  simp only [runBody]
  split_ifs <;> first | rfl | exact runTail_fst e ev ev'

theorem runTail_fst_jarErr (e : RunEnv) (ev ev' : List RunEvent)
    (he : e.jarCheck = .error ()) :
    (runTail e ev).1 = (runTail { e with jarCheck := Except.ok false } ev').1 := by
  simp only [runTail, he]
  split_ifs <;> rfl

theorem runBody_fst_jarErr (e : RunEnv) (ev ev' : List RunEvent)
    (he : e.jarCheck = .error ()) :
    (runBody e ev).1 = (runBody { e with jarCheck := Except.ok false } ev').1 := by
  simp only [runBody]
  split_ifs <;> first | rfl | exact runTail_fst_jarErr e ev ev' he

theorem runTail_event_mem (e : RunEnv) (ev : List RunEvent) (x : RunEvent) (hx : x ∈ ev) :
    x ∈ (runTail e ev).2 := by
  cases hj : e.jarCheck <;> simp only [runTail, hj] <;> split_ifs <;> simp [hx]

theorem runBody_event_mem (e : RunEnv) (ev : List RunEvent) (x : RunEvent) (hx : x ∈ ev) :
    x ∈ (runBody e ev).2 := by
  simp only [runBody]
  split_ifs <;> first | exact hx | exact runTail_event_mem e ev x hx

/-- C5: an update-check failure on either feed never changes the launch
outcome relative to a no-update answer (it is treated as "no update this
run"); the launcher-feed failure is logged as a warning; and with both
checks failing but the rest of the environment healthy, `run` still reaches
the server start. -/
theorem claim_C5_update_check_nonfatal :
    (∀ e : RunEnv, e.launcherCheck = .error () →
      (run e).1 = (run { e with launcherCheck := Except.ok false }).1) ∧
    (∀ e : RunEnv, e.launcherCheck = .error () → e.cfgNil = false →
      .warnedLauncherCheckFailed ∈ (run e).2) ∧
    (∀ e : RunEnv, e.jarCheck = .error () →
      (run e).1 = (run { e with jarCheck := Except.ok false }).1) ∧
    (∀ e : RunEnv, e.cfgNil = false → e.launcherCheck = .error () →
      (e.chdirNeeded && !e.chdirOk) = false → e.javaOk = true → e.eulaOk = true →
      e.findJarOk = true → e.jarFound = true →
      (e.loadChecksumOk && e.checksumNonEmpty && !e.checksumMatches &&
        e.promptRedownloadYes && !e.redownloadOk) = false →
      e.jarCheck = .error () → (e.autoBackup && !e.backupOk) = false →
      run e = ((if e.serverOk then .serverOk else .serverFailed),
        [.warnedLauncherCheckFailed, .warnedJarCheckFailed, .startedServer])) := by
  refine ⟨?_, ?_, ?_, ?_⟩
  · intro e he
    have h1 : runLauncherPhase e = (none, [.warnedLauncherCheckFailed]) := by
      simp [runLauncherPhase, he]
    have h2 : runLauncherPhase { e with launcherCheck := Except.ok false } = (none, []) := by
      simp [runLauncherPhase]
    by_cases hc : e.cfgNil = true
    · simp [run, hc]
    · simp only [run, h1, h2, hc, Bool.false_eq_true, if_false]
      exact runBody_fst e _ _
  · intro e he hc
    have h1 : runLauncherPhase e = (none, [.warnedLauncherCheckFailed]) := by
      simp [runLauncherPhase, he]
    simp only [run, h1, hc, Bool.false_eq_true, if_false]
    exact runBody_event_mem e _ _ (by simp)
  · intro e he
    have hl : runLauncherPhase { e with jarCheck := Except.ok false } = runLauncherPhase e :=
      rfl
    simp only [run, hl]
    by_cases hc : e.cfgNil = true
    · simp [hc]
    · simp only [hc, Bool.false_eq_true, if_false]
      cases hph : runLauncherPhase e with
      | mk o ev =>
        cases o with
        | some outcome => rfl
        | none => exact runBody_fst_jarErr e ev ev he
  · intro e h1 h2 h3 h4 h5 h6 h7 h8 h9 h10
    have hl : runLauncherPhase e = (none, [.warnedLauncherCheckFailed]) := by
      simp [runLauncherPhase, h2]
    simp [run, hl, runBody, runTail, h1, h3, h4, h5, h6, h7, h8, h9, h10]

/-- C5 witness: a healthy environment whose two update checks both fail
still starts the server, with both warnings logged. -/
theorem claim_C5_witness :
    run ⟨false, Except.error (), false, false, true, true, true, false, true, true, true,
        true, true, true, true, true, true, true, true, true, Except.error (), false, false,
        true, false, true, true⟩ =
      (.serverOk, [.warnedLauncherCheckFailed, .warnedJarCheckFailed, .startedServer]) :=
  claim_C5_update_check_nonfatal.2.2.2
    ⟨false, Except.error (), false, false, true, true, true, false, true, true, true,
      true, true, true, true, true, true, true, true, true, Except.error (), false, false,
      true, false, true, true⟩
    rfl rfl rfl rfl rfl rfl rfl rfl rfl rfl

end MSL
